import Mathlib

/-!
Verification of the llmr traversal-and-filtering pipeline (src/main.rs).

The single-pass walker in `main` is shallowly embedded: filesystem paths are
modelled as opaque name strings, and each entry yielded by the ignore-aware
walker carries the data the loop body observes about it (kind, depth, and for
files the outcome of `metadata`, of the classifier's sampling read, and of
`read_to_string`).  Machine integers (`u64` sizes, `usize` counts) are
modelled as `Nat`: the code only ever adds real file sizes that are first
checked against the configured ceilings, so no wraparound is reachable in
the behaviours the claims are about.  Fallible steps return `Except String`
mirroring `anyhow::Result` plus the `with_context` message; the per-entry
loop body is `processEntry`, the whole loop is `runEntries`.
-/

namespace Llmr

/-- CLI limits, mirroring the fields of `Args` (the `report` flag does not
affect the traversal loop and is omitted): `max_file_size`, `max_total_size`,
`max_files`. -/
structure Limits where
  max_file_size : Nat
  max_total_size : Nat
  max_files : Nat
deriving DecidableEq

/-- Reason tag of a recorded per-file skip.  In the source each skip is pushed
onto `errors : Vec<String>` as a formatted message; the reason is determined
by which `errors.push` site ran, which is what this tag records.
`fileCountLimit` is the push at the `total_files >= args.max_files` check,
`totalSizeLimit` the one at `total_size + file_size > args.max_total_size`,
`perFileSizeLimit` the one at `file_size > args.max_file_size`, and
`readError` the one in the `Err` arm of `read_file_content`. -/
inductive SkipReason where
  | fileCountLimit
  | totalSizeLimit
  | perFileSizeLimit
  | readError
deriving DecidableEq

/-- One entry of the `errors` vector: the path in the message plus the reason
tag of the push site. -/
structure SkipRecord where
  path : String
  reason : SkipReason
deriving DecidableEq

/-- One line pushed onto `tree_structure`, structured by push site:
`rootLine` is the root branch push, `dirLine` the directory branch push,
`fileLine` the two file pushes (`nonText = true` for the
`" [Non-text file]"` annotated one).  `indent` is the number of four-space
blocks, i.e. `indent_level - 1` in the source. -/
inductive TreeLine where
  | rootLine (name : String)
  | dirLine (indent : Nat) (name : String)
  | fileLine (indent : Nat) (name : String) (nonText : Bool)
deriving DecidableEq

/-- Render a structured tree line to the exact text pushed by the source. -/
def indentStr (n : Nat) : String :=
  String.join (List.replicate n "    ")

/-- Render of one tree line, matching the three `format!` strings. -/
def renderTreeLine : TreeLine → String
  | .rootLine name => "└── " ++ name ++ "\n"
  | .dirLine indent name => indentStr indent ++ "├── " ++ name ++ "\n"
  | .fileLine indent name nonText =>
      indentStr indent ++ "└── " ++ name ++
        (if nonText then " [Non-text file]" else "") ++ "\n"

/-- What the loop body observes about a regular file.  `name` is the opaque
path; `sizeResult` is `metadata(path).len()` (`none` = IoError);
`bytesResult` is the on-disk byte string available to `is_text_file`'s
sampling read (`none` = open/read IoError); `contentResult` is
`read_to_string` (`none` = IoError or invalid UTF-8). -/
structure FileInfo where
  name : String
  sizeResult : Option Nat
  bytesResult : Option (List Nat)
  contentResult : Option String
deriving DecidableEq

/-- One entry yielded by the walker, classified the way the loop body tests
it: `root` is `path == current_dir`; `dir` is
`entry.file_type().map_or(false, is_dir)`; `file` is `path.is_file()`;
`other` is an entry failing all three tests (broken symlink, socket, ...).
`depth` is `relative_path.iter().count()` (the `indent_level`). -/
inductive Entry where
  | root (name : String)
  | dir (name : String) (depth : Nat)
  | file (info : FileInfo) (depth : Nat)
  | other
deriving DecidableEq

/-- The mutable run state of `main`'s loop: `total_files`, `total_size`, the
`file_contents` vector (each admitted file keeps, besides path and content,
the `file_size` measured by `metadata` that was added to `total_size` at the
commit), the structured `tree_structure`, and the `errors` vector. -/
structure RunState where
  total_files : Nat
  total_size : Nat
  file_contents : List (String × String × Nat)
  tree_lines : List TreeLine
  errors : List SkipRecord
deriving DecidableEq

/-- The state at the top of `main`: all counters zero, all vectors empty. -/
def RunState.init : RunState := ⟨0, 0, [], [], []⟩

/-- Classifier `is_text_file`: sample up to the first 1024 bytes
(`file.read` into a 1024-byte buffer) and return the negation of
`any(|byte| byte < 0x20 && byte != 0x09 && byte != 0x0a && byte != 0x0d)`
over the sampled bytes. -/
def is_text_file (bytes : List Nat) : Bool :=
  !((bytes.take 1024).any fun b =>
    decide (b < 0x20) && !(b == 0x09) && !(b == 0x0a) && !(b == 0x0d))

/-- The `with_context` message of the fatal `metadata` failure. -/
def metaErr (name : String) : String :=
  "Failed to get metadata for file: " ++ name

/-- The `with_context` message of the fatal `is_text_file` failure. -/
def classifyErr (name : String) : String :=
  "Error checking if file is text: " ++ name

/-- One iteration of the `for entry in walker` loop body, threading the run
state explicitly.  Mirrors the source control flow: root branch, directory
branch, then `path.is_file()`; for a file, `metadata` (fatal `?` on error),
the three limit checks in source order (each `continue`s after pushing a
skip), `is_text_file` (fatal `?` on error), then either the
`read_file_content` match (commit on `Ok`, skip on `Err`) or the non-text
tree line. -/
def processEntry (args : Limits) (st : RunState) (e : Entry) :
    Except String RunState :=
  match e with
  | .root name =>
      .ok { st with tree_lines := st.tree_lines ++ [.rootLine name] }
  | .dir name depth =>
      .ok { st with tree_lines := st.tree_lines ++ [.dirLine (depth - 1) name] }
  | .other => .ok st
  | .file info depth =>
      match info.sizeResult with
      | none => .error (metaErr info.name)
      | some file_size =>
        if st.total_files ≥ args.max_files then
          .ok { st with errors := st.errors ++ [⟨info.name, .fileCountLimit⟩] }
        else if st.total_size + file_size > args.max_total_size then
          .ok { st with errors := st.errors ++ [⟨info.name, .totalSizeLimit⟩] }
        else if file_size > args.max_file_size then
          .ok { st with errors := st.errors ++ [⟨info.name, .perFileSizeLimit⟩] }
        else
          match info.bytesResult with
          | none => .error (classifyErr info.name)
          | some bytes =>
            if is_text_file bytes then
              match info.contentResult with
              | some content =>
                  .ok { st with
                    file_contents :=
                      st.file_contents ++ [(info.name, content, file_size)],
                    total_size := st.total_size + file_size,
                    total_files := st.total_files + 1,
                    tree_lines :=
                      st.tree_lines ++ [.fileLine (depth - 1) info.name false] }
              | none =>
                  .ok { st with errors := st.errors ++ [⟨info.name, .readError⟩] }
            else
              .ok { st with
                tree_lines :=
                  st.tree_lines ++ [.fileLine (depth - 1) info.name true] }

/-- The whole `for entry in walker` loop: fold `processEntry` over the entry
stream, aborting on the first fatal error (the `?` propagation out of
`main`). -/
def runEntries (args : Limits) : RunState → List Entry → Except String RunState
  | st, [] => .ok st
  | st, e :: es =>
    match processEntry args st e with
    | .ok st' => runEntries args st' es
    | .error msg => .error msg

/-- Entries of directory kind in a yielded stream. -/
def countDirs (es : List Entry) : Nat :=
  es.countP fun e => match e with | .dir _ _ => true | _ => false

/-- Entries of root kind in a yielded stream. -/
def countRoots (es : List Entry) : Nat :=
  es.countP fun e => match e with | .root _ => true | _ => false

/-- Entries that are neither root, directory, nor regular file. -/
def countOthers (es : List Entry) : Nat :=
  es.countP fun e => match e with | .other => true | _ => false

/-- Tree lines annotated `" [Non-text file]"`. -/
def nonTextLineCount (ls : List TreeLine) : Nat :=
  ls.countP fun l => match l with | .fileLine _ _ true => true | _ => false

/-- Tree lines produced by the root branch. -/
def rootLineCount (ls : List TreeLine) : Nat :=
  ls.countP fun l => match l with | .rootLine _ => true | _ => false

/-- Tree lines produced by the directory branch. -/
def dirLineCount (ls : List TreeLine) : Nat :=
  ls.countP fun l => match l with | .dirLine _ _ => true | _ => false

/-- Names on the file tree lines that carry no annotation, in order. -/
def plainFileNames (ls : List TreeLine) : List String :=
  ls.filterMap fun l => match l with
    | .fileLine _ n false => some n
    | _ => none

end Llmr

namespace Llmr

theorem processEntry_root (args : Limits) (st : RunState) (name : String) :
    processEntry args st (.root name) =
      .ok { st with tree_lines := st.tree_lines ++ [.rootLine name] } := rfl

theorem processEntry_dir (args : Limits) (st : RunState) (name : String) (d : Nat) :
    processEntry args st (.dir name d) =
      .ok { st with tree_lines := st.tree_lines ++ [.dirLine (d - 1) name] } := rfl

theorem processEntry_other (args : Limits) (st : RunState) :
    processEntry args st .other = .ok st := rfl

theorem processEntry_file_meta_err (args : Limits) (st : RunState) (n : String)
    (b : Option (List Nat)) (c : Option String) (d : Nat) :
    processEntry args st (.file ⟨n, none, b, c⟩ d) = .error (metaErr n) := rfl

theorem processEntry_file_classify_err (args : Limits) (st : RunState) (n : String)
    (c : Option String) (d sz : Nat)
    (h1 : st.total_files < args.max_files)
    (h2 : st.total_size + sz ≤ args.max_total_size)
    (h3 : sz ≤ args.max_file_size) :
    processEntry args st (.file ⟨n, some sz, none, c⟩ d) = .error (classifyErr n) := by
  simp only [processEntry]
  rw [if_neg (by omega), if_neg (by omega), if_neg (by omega)]

theorem processEntry_file_read_err (args : Limits) (st : RunState) (n : String)
    (d sz : Nat) (bytes : List Nat)
    (h1 : st.total_files < args.max_files)
    (h2 : st.total_size + sz ≤ args.max_total_size)
    (h3 : sz ≤ args.max_file_size)
    (ht : is_text_file bytes = true) :
    processEntry args st (.file ⟨n, some sz, some bytes, none⟩ d) =
      .ok { st with errors := st.errors ++ [⟨n, .readError⟩] } := by
  simp only [processEntry]
  rw [if_neg (by omega), if_neg (by omega), if_neg (by omega), if_pos ht]

theorem processEntry_file_binary (args : Limits) (st : RunState) (n : String)
    (c : Option String) (d sz : Nat) (bytes : List Nat)
    (h1 : st.total_files < args.max_files)
    (h2 : st.total_size + sz ≤ args.max_total_size)
    (h3 : sz ≤ args.max_file_size)
    (ht : is_text_file bytes = false) :
    processEntry args st (.file ⟨n, some sz, some bytes, c⟩ d) =
      .ok { st with tree_lines := st.tree_lines ++ [.fileLine (d - 1) n true] } := by
  simp only [processEntry]
  rw [if_neg (by omega), if_neg (by omega), if_neg (by omega),
    if_neg (by simp [ht])]

theorem processEntry_file_commit (args : Limits) (st : RunState) (n : String)
    (content : String) (d sz : Nat) (bytes : List Nat)
    (h1 : st.total_files < args.max_files)
    (h2 : st.total_size + sz ≤ args.max_total_size)
    (h3 : sz ≤ args.max_file_size)
    (ht : is_text_file bytes = true) :
    processEntry args st (.file ⟨n, some sz, some bytes, some content⟩ d) =
      .ok { st with
        file_contents := st.file_contents ++ [(n, content, sz)],
        total_size := st.total_size + sz,
        total_files := st.total_files + 1,
        tree_lines := st.tree_lines ++ [.fileLine (d - 1) n false] } := by
  simp only [processEntry]
  rw [if_neg (by omega), if_neg (by omega), if_neg (by omega), if_pos ht]

/-- Exhaustive description of the successful outcomes of the file branch of
the loop body: the first failing limit check (in source order) records its
skip, and past the limits the classifier splits binary tree-line,
failed-read skip, and commit. -/
theorem processEntry_file_ok_cases (args : Limits) (st : RunState)
    (info : FileInfo) (d : Nat) (st' : RunState)
    (h : processEntry args st (.file info d) = .ok st') :
    ∃ sz, info.sizeResult = some sz ∧
      ((args.max_files ≤ st.total_files ∧
          st' = { st with errors := st.errors ++ [⟨info.name, .fileCountLimit⟩] }) ∨
       (st.total_files < args.max_files ∧
          args.max_total_size < st.total_size + sz ∧
          st' = { st with errors := st.errors ++ [⟨info.name, .totalSizeLimit⟩] }) ∨
       (st.total_files < args.max_files ∧
          st.total_size + sz ≤ args.max_total_size ∧
          args.max_file_size < sz ∧
          st' = { st with errors := st.errors ++ [⟨info.name, .perFileSizeLimit⟩] }) ∨
       (st.total_files < args.max_files ∧
          st.total_size + sz ≤ args.max_total_size ∧
          sz ≤ args.max_file_size ∧
          ∃ bytes, info.bytesResult = some bytes ∧
            ((is_text_file bytes = false ∧
                st' = { st with
                  tree_lines := st.tree_lines ++ [.fileLine (d - 1) info.name true] }) ∨
             (is_text_file bytes = true ∧ info.contentResult = none ∧
                st' = { st with errors := st.errors ++ [⟨info.name, .readError⟩] }) ∨
             (∃ content, is_text_file bytes = true ∧
                info.contentResult = some content ∧
                st' = { st with
                  file_contents := st.file_contents ++ [(info.name, content, sz)],
                  total_size := st.total_size + sz,
                  total_files := st.total_files + 1,
                  tree_lines :=
                    st.tree_lines ++ [.fileLine (d - 1) info.name false] })))) := by
  obtain ⟨n, szr, byr, ctr⟩ := info
  cases szr with
  | none => exact absurd h (by simp [processEntry])
  | some sz =>
    refine ⟨sz, rfl, ?_⟩
    simp only [processEntry] at h
    by_cases h1 : st.total_files ≥ args.max_files
    · rw [if_pos h1] at h
      exact Or.inl ⟨h1, (Except.ok.inj h).symm⟩
    · rw [if_neg h1] at h
      push_neg at h1
      by_cases h2 : st.total_size + sz > args.max_total_size
      · rw [if_pos h2] at h
        exact Or.inr (Or.inl ⟨h1, h2, (Except.ok.inj h).symm⟩)
      · rw [if_neg h2] at h
        push_neg at h2
        by_cases h3 : sz > args.max_file_size
        · rw [if_pos h3] at h
          exact Or.inr (Or.inr (Or.inl ⟨h1, h2, h3, (Except.ok.inj h).symm⟩))
        · rw [if_neg h3] at h
          push_neg at h3
          cases byr with
          | none => exact absurd h (by simp)
          | some bytes =>
            simp only at h
            refine Or.inr (Or.inr (Or.inr ⟨h1, h2, h3, bytes, rfl, ?_⟩))
            by_cases ht : is_text_file bytes = true
            · rw [if_pos ht] at h
              cases ctr with
              | none =>
                  exact Or.inr (Or.inl ⟨ht, rfl, (Except.ok.inj h).symm⟩)
              | some content =>
                  exact Or.inr (Or.inr ⟨content, ht, rfl, (Except.ok.inj h).symm⟩)
            · rw [if_neg ht] at h
              exact Or.inl ⟨Bool.eq_false_iff.mpr ht, (Except.ok.inj h).symm⟩

end Llmr

namespace Llmr

theorem runEntries_nil (args : Limits) (st : RunState) :
    runEntries args st [] = .ok st := rfl

theorem runEntries_cons_ok (args : Limits) (st : RunState) (e : Entry)
    (es : List Entry) (st1 : RunState) (h : processEntry args st e = .ok st1) :
    runEntries args st (e :: es) = runEntries args st1 es := by
  simp only [runEntries, h]

theorem runEntries_cons_err (args : Limits) (st : RunState) (e : Entry)
    (es : List Entry) (m : String) (h : processEntry args st e = .error m) :
    runEntries args st (e :: es) = .error m := by
  simp only [runEntries, h]

/-- Any property of the run state preserved by every successful loop
iteration is preserved by the whole loop. -/
theorem runEntries_ok_inv (args : Limits) (P : RunState → Prop)
    (hstep : ∀ st e st', processEntry args st e = .ok st' → P st → P st') :
    ∀ (es : List Entry) (st st' : RunState),
      runEntries args st es = .ok st' → P st → P st' := by
  intro es
  induction es with
  | nil =>
      intro st st' h hP
      exact (Except.ok.inj h) ▸ hP
  | cons e es ih =>
      intro st st' h hP
      cases hpe : processEntry args st e with
      | error m =>
          rw [runEntries_cons_err args st e es m hpe] at h
          exact Except.noConfusion h
      | ok st1 =>
          rw [runEntries_cons_ok args st e es st1 hpe] at h
          exact ih st1 st' h (hstep st e st1 hpe hP)

end Llmr

namespace Llmr

/-- C6: the classifier samples at most the first 1024 bytes of the file and
returns text (true) iff no sampled byte is below 0x20 other than tab (0x09),
newline (0x0A), or carriage return (0x0D); in particular the empty file is
classified text, and bytes at or above 0x80 never cause a binary
classification (any byte list that is entirely at or above 0x80 is text). -/
theorem C6_classifier_semantics (bytes : List Nat) :
    (is_text_file bytes = true ↔
      ∀ b ∈ bytes.take 1024, 0x20 ≤ b ∨ b = 0x09 ∨ b = 0x0a ∨ b = 0x0d) ∧
    is_text_file bytes = is_text_file (bytes.take 1024) ∧
    is_text_file [] = true ∧
    ((∀ b ∈ bytes, 0x80 ≤ b) → is_text_file bytes = true) := by
  have point : ∀ b : Nat,
      ((decide (b < 0x20) && !(b == 0x09) && !(b == 0x0a) && !(b == 0x0d)) = false)
        ↔ (0x20 ≤ b ∨ b = 0x09 ∨ b = 0x0a ∨ b = 0x0d) := by
    intro b
    rcases Nat.lt_or_ge b 0x20 with hlt | hge
    · simp only [decide_eq_true_eq, Bool.and_eq_false_iff, decide_eq_false_iff_not,
        Nat.not_lt, Bool.not_eq_false', beq_iff_eq]
      omega
    · simp only [Bool.and_eq_false_iff, decide_eq_false_iff_not, Nat.not_lt,
        Bool.not_eq_false', beq_iff_eq]
      omega
  have hiff : is_text_file bytes = true ↔
      ∀ b ∈ bytes.take 1024, 0x20 ≤ b ∨ b = 0x09 ∨ b = 0x0a ∨ b = 0x0d := by
    simp only [is_text_file, Bool.not_eq_true', List.any_eq_false, Bool.not_eq_true]
    constructor
    · intro h b hb
      exact (point b).mp (h b hb)
    · intro h b hb
      exact (point b).mpr (h b hb)
  refine ⟨hiff, ?_, by decide, ?_⟩
  · simp [is_text_file, List.take_take]
  · intro h
    refine hiff.mpr fun b hb => Or.inl ?_
    have := h b (List.take_subset 1024 bytes hb)
    omega

/-- Witness for C6 at the concrete sample 0x80, 0xFF: high-bit bytes are
classified text. -/
theorem C6_classifier_semantics_witness : is_text_file [128, 255] = true :=
  (C6_classifier_semantics [128, 255]).2.2.2 (by decide)

end Llmr

namespace Llmr

/-- C2: the three limit checks are evaluated in the fixed source order
file-count, then cumulative total-size, then per-file size, the first
failing check determining the recorded skip reason: a state at the file
count ceiling records file-count-limit whatever the sizes; below the count
ceiling, a candidate overflowing the cumulative ceiling records
total-size-limit with no constraint relating its size to `max_file_size`
(so also when it exceeds it, as in the first-file scenario); and only a
candidate passing both earlier checks can record per-file-size-limit. -/
theorem C2_limit_check_order (a1 a2 a3 : Limits) (s1 s2 s3 : RunState)
    (i1 i2 i3 : FileInfo) (d z1 z2 z3 : Nat)
    (hz1 : i1.sizeResult = some z1) (hc1 : s1.total_files ≥ a1.max_files)
    (hz2 : i2.sizeResult = some z2) (hc2 : s2.total_files < a2.max_files)
    (ht2 : s2.total_size + z2 > a2.max_total_size)
    (hz3 : i3.sizeResult = some z3) (hc3 : s3.total_files < a3.max_files)
    (ht3 : s3.total_size + z3 ≤ a3.max_total_size)
    (hf3 : z3 > a3.max_file_size) :
    processEntry a1 s1 (.file i1 d) =
      .ok { s1 with errors := s1.errors ++ [⟨i1.name, .fileCountLimit⟩] } ∧
    processEntry a2 s2 (.file i2 d) =
      .ok { s2 with errors := s2.errors ++ [⟨i2.name, .totalSizeLimit⟩] } ∧
    processEntry a3 s3 (.file i3 d) =
      .ok { s3 with errors := s3.errors ++ [⟨i3.name, .perFileSizeLimit⟩] } := by
  refine ⟨?_, ?_, ?_⟩
  · simp only [processEntry, hz1]
    rw [if_pos hc1]
  · simp only [processEntry, hz2]
    rw [if_neg (by omega), if_pos ht2]
  · simp only [processEntry, hz3]
    rw [if_neg (by omega), if_neg (by omega), if_pos hf3]

/-- Witness for C2, with the scenario-E instance in the middle: limits
(file 5, total 10, count 7) and a first file of size 20 overflow both the
total and the per-file ceiling, yet the recorded reason is the total-size
one. -/
theorem C2_limit_check_order_witness :
    processEntry ⟨5, 100, 0⟩ RunState.init
        (.file ⟨"a", some 3, some [65], some "x"⟩ 1) =
      .ok { RunState.init with
        errors := RunState.init.errors ++ [⟨"a", .fileCountLimit⟩] } ∧
    processEntry ⟨5, 10, 7⟩ RunState.init
        (.file ⟨"b", some 20, some [65], some "x"⟩ 1) =
      .ok { RunState.init with
        errors := RunState.init.errors ++ [⟨"b", .totalSizeLimit⟩] } ∧
    processEntry ⟨5, 100, 7⟩ RunState.init
        (.file ⟨"c", some 8, some [65], some "x"⟩ 1) =
      .ok { RunState.init with
        errors := RunState.init.errors ++ [⟨"c", .perFileSizeLimit⟩] } :=
  C2_limit_check_order ⟨5, 100, 0⟩ ⟨5, 10, 7⟩ ⟨5, 100, 7⟩
    RunState.init RunState.init RunState.init
    ⟨"a", some 3, some [65], some "x"⟩ ⟨"b", some 20, some [65], some "x"⟩
    ⟨"c", some 8, some [65], some "x"⟩ 1 3 20 8
    rfl (by decide) rfl (by decide) (by decide) rfl (by decide) (by decide)
    (by decide)

/-- C7: a file that passes the three limit checks but is classified binary
gets exactly one tree line carrying the non-text annotation, while content,
skip records, and both running totals are untouched (the resulting state
differs from the previous one only in `tree_lines`); the annotated line
renders with the literal `" [Non-text file]"` suffix. -/
theorem C7_binary_file_behavior (args : Limits) (st : RunState)
    (info : FileInfo) (d sz : Nat) (bytes : List Nat)
    (hsz : info.sizeResult = some sz)
    (hb : info.bytesResult = some bytes)
    (hcount : st.total_files < args.max_files)
    (htot : st.total_size + sz ≤ args.max_total_size)
    (hfile : sz ≤ args.max_file_size)
    (hbin : is_text_file bytes = false) :
    processEntry args st (.file info d) =
      .ok { st with
        tree_lines := st.tree_lines ++ [.fileLine (d - 1) info.name true] } ∧
    renderTreeLine (.fileLine (d - 1) info.name true) =
      indentStr (d - 1) ++ "└── " ++ info.name ++ " [Non-text file]" ++ "\n" := by
  constructor
  · simp only [processEntry, hsz, hb]
    rw [if_neg (by omega), if_neg (by omega), if_neg (by omega),
      if_neg (by simp [hbin])]
  · simp [renderTreeLine]

/-- Witness for C7 at a NUL-containing file of size 3 under limits
(file 5, total 100, count 10). -/
theorem C7_binary_file_behavior_witness :
    processEntry ⟨5, 100, 10⟩ RunState.init (.file ⟨"bin", some 3, some [0], none⟩ 2) =
      .ok { RunState.init with
        tree_lines := RunState.init.tree_lines ++ [.fileLine 1 "bin" true] } ∧
    renderTreeLine (.fileLine (2 - 1) "bin" true) =
      indentStr (2 - 1) ++ "└── " ++ "bin" ++ " [Non-text file]" ++ "\n" :=
  C7_binary_file_behavior ⟨5, 100, 10⟩ RunState.init ⟨"bin", some 3, some [0], none⟩
    2 3 [0] rfl rfl (by decide) (by decide) (by decide) (by decide)

/-- C10: an entry that is neither the root, nor a directory, nor a regular
file leaves the run state fully unchanged (no tree line, no skip record, no
content, no counter change), and deleting such an entry anywhere in the
stream does not change the run's outcome. -/
theorem C10_other_entries_no_effect (args : Limits) (st : RunState)
    (es1 es2 : List Entry) :
    processEntry args st .other = .ok st ∧
    runEntries args st (es1 ++ .other :: es2) = runEntries args st (es1 ++ es2) := by
  refine ⟨rfl, ?_⟩
  induction es1 generalizing st with
  | nil => exact runEntries_cons_ok args st .other es2 st rfl
  | cons e es1 ih =>
      cases hpe : processEntry args st e with
      | error m =>
          rw [List.cons_append, List.cons_append,
            runEntries_cons_err args st e _ m hpe,
            runEntries_cons_err args st e _ m hpe]
      | ok st1 =>
          rw [List.cons_append, List.cons_append,
            runEntries_cons_ok args st e _ st1 hpe,
            runEntries_cons_ok args st e _ st1 hpe]
          exact ih st1

end Llmr

namespace Llmr

/-- C3: for a file entry the loop body increments the running totals only
together with a successful full content read: every successful iteration
either leaves `total_files`, `total_size` and the stored contents unchanged
(limit skip, read-error skip, or binary exclusion), or the content read
returned text and exactly that file, with its admission-time size, was
appended while the totals grew by one file and that size.  (A classifier
IoError aborts the run without producing any successor state at all, so it
never mutates the totals either.) -/
theorem C3_commit_only_after_read (args : Limits) (st : RunState)
    (info : FileInfo) (d : Nat) (st' : RunState)
    (h : processEntry args st (.file info d) = .ok st') :
    (st'.total_files = st.total_files ∧ st'.total_size = st.total_size ∧
       st'.file_contents = st.file_contents) ∨
    (∃ sz content, info.sizeResult = some sz ∧ info.contentResult = some content ∧
       st'.total_files = st.total_files + 1 ∧
       st'.total_size = st.total_size + sz ∧
       st'.file_contents = st.file_contents ++ [(info.name, content, sz)]) := by
  obtain ⟨sz, hsz, hcases⟩ := processEntry_file_ok_cases args st info d st' h
  rcases hcases with ⟨-, rfl⟩ | ⟨-, -, rfl⟩ | ⟨-, -, -, rfl⟩ | ⟨-, -, -, bytes, hb, hcl⟩
  · exact Or.inl ⟨rfl, rfl, rfl⟩
  · exact Or.inl ⟨rfl, rfl, rfl⟩
  · exact Or.inl ⟨rfl, rfl, rfl⟩
  · rcases hcl with ⟨-, rfl⟩ | ⟨-, -, rfl⟩ | ⟨content, -, hc, rfl⟩
    · exact Or.inl ⟨rfl, rfl, rfl⟩
    · exact Or.inl ⟨rfl, rfl, rfl⟩
    · exact Or.inr ⟨sz, content, hsz, hc, rfl, rfl, rfl⟩

/-- Witness for C3 at a binary file (left branch: totals and contents
untouched). -/
theorem C3_commit_only_after_read_witness :
    (({ RunState.init with
          tree_lines := RunState.init.tree_lines ++ [.fileLine 0 "bin" true] }
            : RunState).total_files = RunState.init.total_files ∧
       ({ RunState.init with
          tree_lines := RunState.init.tree_lines ++ [.fileLine 0 "bin" true] }
            : RunState).total_size = RunState.init.total_size ∧
       ({ RunState.init with
          tree_lines := RunState.init.tree_lines ++ [.fileLine 0 "bin" true] }
            : RunState).file_contents = RunState.init.file_contents) ∨
    (∃ sz content,
       (⟨"bin", some 3, some [0], none⟩ : FileInfo).sizeResult = some sz ∧
       (⟨"bin", some 3, some [0], none⟩ : FileInfo).contentResult = some content ∧
       ({ RunState.init with
          tree_lines := RunState.init.tree_lines ++ [.fileLine 0 "bin" true] }
            : RunState).total_files = RunState.init.total_files + 1 ∧
       ({ RunState.init with
          tree_lines := RunState.init.tree_lines ++ [.fileLine 0 "bin" true] }
            : RunState).total_size = RunState.init.total_size + sz ∧
       ({ RunState.init with
          tree_lines := RunState.init.tree_lines ++ [.fileLine 0 "bin" true] }
            : RunState).file_contents =
         RunState.init.file_contents ++ [("bin", content, sz)]) :=
  C3_commit_only_after_read ⟨5, 100, 10⟩ RunState.init ⟨"bin", some 3, some [0], none⟩
    1 _ rfl

/-- C4: after any run from the initial state, `total_size` equals the sum of
the admission-time measured sizes of the admitted files, and `total_files`
equals their number. -/
theorem C4_totals_match_admitted (args : Limits) (entries : List Entry)
    (st' : RunState) (h : runEntries args RunState.init entries = .ok st') :
    st'.total_size = (st'.file_contents.map fun t => t.2.2).sum ∧
    st'.total_files = st'.file_contents.length := by
  refine runEntries_ok_inv args
    (fun st => st.total_size = (st.file_contents.map fun t => t.2.2).sum ∧
      st.total_files = st.file_contents.length) ?_ entries RunState.init st' h
    ⟨rfl, rfl⟩
  intro st e st' hpe hP
  cases e with
  | root name =>
      rw [processEntry_root] at hpe
      obtain rfl := Except.ok.inj hpe
      exact hP
  | dir name depth =>
      rw [processEntry_dir] at hpe
      obtain rfl := Except.ok.inj hpe
      exact hP
  | other =>
      rw [processEntry_other] at hpe
      obtain rfl := Except.ok.inj hpe
      exact hP
  | file info d =>
      obtain ⟨sz, hsz, hcases⟩ := processEntry_file_ok_cases args st info d st' hpe
      rcases hcases with ⟨-, rfl⟩ | ⟨-, -, rfl⟩ | ⟨-, -, -, rfl⟩ | ⟨-, -, -, bytes, hb, hcl⟩
      · exact hP
      · exact hP
      · exact hP
      · rcases hcl with ⟨-, rfl⟩ | ⟨-, -, rfl⟩ | ⟨content, -, hc, rfl⟩
        · exact hP
        · exact hP
        · refine ⟨?_, ?_⟩
          · simp [List.map_append, hP.1]
          · simp [hP.2]

/-- Witness for C4 at a two-entry run admitting one 3-byte file. -/
theorem C4_totals_match_admitted_witness :
    (⟨1, 3, [("a", "hi", 3)], [.rootLine "r", .fileLine 0 "a" false], []⟩
        : RunState).total_size =
      ((⟨1, 3, [("a", "hi", 3)], [.rootLine "r", .fileLine 0 "a" false], []⟩
        : RunState).file_contents.map fun t => t.2.2).sum ∧
    (⟨1, 3, [("a", "hi", 3)], [.rootLine "r", .fileLine 0 "a" false], []⟩
        : RunState).total_files =
      (⟨1, 3, [("a", "hi", 3)], [.rootLine "r", .fileLine 0 "a" false], []⟩
        : RunState).file_contents.length :=
  C4_totals_match_admitted ⟨5, 100, 10⟩
    [.root "r", .file ⟨"a", some 3, some [65], some "hi"⟩ 1]
    ⟨1, 3, [("a", "hi", 3)], [.rootLine "r", .fileLine 0 "a" false], []⟩ rfl

/-- C5: after any run from the initial state (hence, applied to every prefix
of a run, at every point of the run) the admitted-file count is at most
`max_files`, the admitted byte total is at most `max_total_size`, and no
admitted file's admission-time measured size exceeds `max_file_size`. -/
theorem C5_ceilings_respected (args : Limits) (entries : List Entry)
    (st' : RunState) (h : runEntries args RunState.init entries = .ok st') :
    st'.total_files ≤ args.max_files ∧
    st'.total_size ≤ args.max_total_size ∧
    ∀ t ∈ st'.file_contents, t.2.2 ≤ args.max_file_size := by
  refine runEntries_ok_inv args
    (fun st => st.total_files ≤ args.max_files ∧
      st.total_size ≤ args.max_total_size ∧
      ∀ t ∈ st.file_contents, t.2.2 ≤ args.max_file_size) ?_ entries
    RunState.init st' h ⟨Nat.zero_le _, Nat.zero_le _, by simp [RunState.init]⟩
  intro st e st' hpe hP
  cases e with
  | root name =>
      rw [processEntry_root] at hpe
      obtain rfl := Except.ok.inj hpe
      exact hP
  | dir name depth =>
      rw [processEntry_dir] at hpe
      obtain rfl := Except.ok.inj hpe
      exact hP
  | other =>
      rw [processEntry_other] at hpe
      obtain rfl := Except.ok.inj hpe
      exact hP
  | file info d =>
      obtain ⟨sz, hsz, hcases⟩ := processEntry_file_ok_cases args st info d st' hpe
      rcases hcases with ⟨-, rfl⟩ | ⟨-, -, rfl⟩ | ⟨-, -, -, rfl⟩ |
        ⟨h1, h2, h3, bytes, hb, hcl⟩
      · exact hP
      · exact hP
      · exact hP
      · rcases hcl with ⟨-, rfl⟩ | ⟨-, -, rfl⟩ | ⟨content, -, hc, rfl⟩
        · exact hP
        · exact hP
        · refine ⟨show st.total_files + 1 ≤ args.max_files by omega,
            show st.total_size + sz ≤ args.max_total_size by omega, ?_⟩
          intro t ht
          rcases List.mem_append.mp ht with ht | ht
          · exact hP.2.2 t ht
          · rcases List.mem_singleton.mp ht with rfl
            exact h3

/-- Witness for C5 at a two-entry run admitting one 3-byte file under limits
(file 5, total 100, count 10). -/
theorem C5_ceilings_respected_witness :
    (⟨1, 3, [("a", "hi", 3)], [.rootLine "r", .fileLine 0 "a" false], []⟩
        : RunState).total_files ≤ (⟨5, 100, 10⟩ : Limits).max_files ∧
    (⟨1, 3, [("a", "hi", 3)], [.rootLine "r", .fileLine 0 "a" false], []⟩
        : RunState).total_size ≤ (⟨5, 100, 10⟩ : Limits).max_total_size ∧
    ∀ t ∈ (⟨1, 3, [("a", "hi", 3)], [.rootLine "r", .fileLine 0 "a" false], []⟩
        : RunState).file_contents, t.2.2 ≤ (⟨5, 100, 10⟩ : Limits).max_file_size :=
  C5_ceilings_respected ⟨5, 100, 10⟩
    [.root "r", .file ⟨"a", some 3, some [65], some "hi"⟩ 1]
    ⟨1, 3, [("a", "hi", 3)], [.rootLine "r", .fileLine 0 "a" false], []⟩ rfl

end Llmr

namespace Llmr

/-- C8: every entry produces at most one tree line; any iteration that
records a skip (in particular a limit rejection) emits no tree line at all;
and after any run from the initial state the names on the unannotated file
tree lines are exactly, and in the same order, the admitted files whose
contents are printed. -/
theorem C8_tree_matches_admitted (args : Limits) :
    (∀ st e st', processEntry args st e = .ok st' →
       st'.tree_lines = st.tree_lines ∨
       ∃ l, st'.tree_lines = st.tree_lines ++ [l]) ∧
    (∀ st e st', processEntry args st e = .ok st' → st'.errors ≠ st.errors →
       st'.tree_lines = st.tree_lines) ∧
    (∀ entries st', runEntries args RunState.init entries = .ok st' →
       plainFileNames st'.tree_lines = st'.file_contents.map fun t => t.1) := by
  refine ⟨?_, ?_, ?_⟩
  · intro st e st' hpe
    cases e with
    | root name =>
        rw [processEntry_root] at hpe
        obtain rfl := Except.ok.inj hpe
        exact Or.inr ⟨_, rfl⟩
    | dir name depth =>
        rw [processEntry_dir] at hpe
        obtain rfl := Except.ok.inj hpe
        exact Or.inr ⟨_, rfl⟩
    | other =>
        rw [processEntry_other] at hpe
        obtain rfl := Except.ok.inj hpe
        exact Or.inl rfl
    | file info d =>
        obtain ⟨sz, hsz, hcases⟩ := processEntry_file_ok_cases args st info d st' hpe
        rcases hcases with ⟨-, rfl⟩ | ⟨-, -, rfl⟩ | ⟨-, -, -, rfl⟩ |
          ⟨-, -, -, bytes, hb, hcl⟩
        · exact Or.inl rfl
        · exact Or.inl rfl
        · exact Or.inl rfl
        · rcases hcl with ⟨-, rfl⟩ | ⟨-, -, rfl⟩ | ⟨content, -, hc, rfl⟩
          · exact Or.inr ⟨_, rfl⟩
          · exact Or.inl rfl
          · exact Or.inr ⟨_, rfl⟩
  · intro st e st' hpe hne
    cases e with
    | root name =>
        rw [processEntry_root] at hpe
        obtain rfl := Except.ok.inj hpe
        exact absurd rfl hne
    | dir name depth =>
        rw [processEntry_dir] at hpe
        obtain rfl := Except.ok.inj hpe
        exact absurd rfl hne
    | other =>
        rw [processEntry_other] at hpe
        obtain rfl := Except.ok.inj hpe
        exact absurd rfl hne
    | file info d =>
        obtain ⟨sz, hsz, hcases⟩ := processEntry_file_ok_cases args st info d st' hpe
        rcases hcases with ⟨-, rfl⟩ | ⟨-, -, rfl⟩ | ⟨-, -, -, rfl⟩ |
          ⟨-, -, -, bytes, hb, hcl⟩
        · rfl
        · rfl
        · rfl
        · rcases hcl with ⟨-, rfl⟩ | ⟨-, -, rfl⟩ | ⟨content, -, hc, rfl⟩
          · exact absurd rfl hne
          · rfl
          · exact absurd rfl hne
  · intro entries st' h
    refine runEntries_ok_inv args
      (fun st => plainFileNames st.tree_lines = st.file_contents.map fun t => t.1)
      ?_ entries RunState.init st' h rfl
    intro st e st' hpe hP
    cases e with
    | root name =>
        rw [processEntry_root] at hpe
        obtain rfl := Except.ok.inj hpe
        simp [plainFileNames, List.filterMap_append] at hP ⊢
        exact hP
    | dir name depth =>
        rw [processEntry_dir] at hpe
        obtain rfl := Except.ok.inj hpe
        simp [plainFileNames, List.filterMap_append] at hP ⊢
        exact hP
    | other =>
        rw [processEntry_other] at hpe
        obtain rfl := Except.ok.inj hpe
        exact hP
    | file info d =>
        obtain ⟨sz, hsz, hcases⟩ := processEntry_file_ok_cases args st info d st' hpe
        rcases hcases with ⟨-, rfl⟩ | ⟨-, -, rfl⟩ | ⟨-, -, -, rfl⟩ |
          ⟨-, -, -, bytes, hb, hcl⟩
        · exact hP
        · exact hP
        · exact hP
        · rcases hcl with ⟨-, rfl⟩ | ⟨-, -, rfl⟩ | ⟨content, -, hc, rfl⟩
          · simp [plainFileNames, List.filterMap_append] at hP ⊢
            exact hP
          · exact hP
          · simp [plainFileNames, List.filterMap_append, List.map_append] at hP ⊢
            exact hP

/-- Witness for C8: the root line is one appended tree line, and on a
concrete run admitting one file the unannotated file lines match the
admitted files. -/
theorem C8_tree_matches_admitted_witness :
    ((({ RunState.init with
          tree_lines := RunState.init.tree_lines ++ [.rootLine "r"] }
            : RunState).tree_lines = RunState.init.tree_lines ∨
       ∃ l, ({ RunState.init with
          tree_lines := RunState.init.tree_lines ++ [.rootLine "r"] }
            : RunState).tree_lines = RunState.init.tree_lines ++ [l])) ∧
    plainFileNames
        (⟨1, 3, [("a", "hi", 3)], [.rootLine "r", .fileLine 0 "a" false,
            .fileLine 0 "bin" true], []⟩ : RunState).tree_lines =
      (⟨1, 3, [("a", "hi", 3)], [.rootLine "r", .fileLine 0 "a" false,
          .fileLine 0 "bin" true], []⟩ : RunState).file_contents.map
        fun t => t.1 :=
  ⟨(C8_tree_matches_admitted ⟨5, 100, 10⟩).1 RunState.init (.root "r") _ rfl,
   (C8_tree_matches_admitted ⟨5, 100, 10⟩).2.2
     [.root "r", .file ⟨"a", some 3, some [65], some "hi"⟩ 1,
      .file ⟨"bin", some 3, some [0], none⟩ 1]
     ⟨1, 3, [("a", "hi", 3)], [.rootLine "r", .fileLine 0 "a" false,
        .fileLine 0 "bin" true], []⟩ rfl⟩

end Llmr

namespace Llmr

/-- Accounting over a run segment: each successfully processed entry adds
one to exactly one of admitted files, skip records, non-text tree lines,
root entries, directory entries, or other-kind entries. -/
theorem runEntries_accounting (args : Limits) : ∀ (entries : List Entry)
    (st st' : RunState), runEntries args st entries = .ok st' →
    (st'.file_contents.length + st'.errors.length +
        nonTextLineCount st'.tree_lines)
        + countRoots entries + countDirs entries + countOthers entries
      = (st.file_contents.length + st.errors.length +
        nonTextLineCount st.tree_lines) + entries.length := by
  intro entries
  induction entries with
  | nil =>
      intro st st' h
      obtain rfl := Except.ok.inj h
      simp [countRoots, countDirs, countOthers]
  | cons e es ih =>
      intro st st' h
      cases hpe : processEntry args st e with
      | error m =>
          rw [runEntries_cons_err args st e es m hpe] at h
          exact Except.noConfusion h
      | ok st1 =>
          rw [runEntries_cons_ok args st e es st1 hpe] at h
          have ihA := ih st1 st' h
          cases e with
          | root name =>
              rw [processEntry_root] at hpe
              obtain rfl := Except.ok.inj hpe
              simp only [countRoots, countDirs, countOthers, List.countP_cons,
                nonTextLineCount, List.countP_append, List.length_cons] at ihA ⊢
              simp at ihA ⊢
              omega
          | dir name depth =>
              rw [processEntry_dir] at hpe
              obtain rfl := Except.ok.inj hpe
              simp only [countRoots, countDirs, countOthers, List.countP_cons,
                nonTextLineCount, List.countP_append, List.length_cons] at ihA ⊢
              simp at ihA ⊢
              omega
          | other =>
              rw [processEntry_other] at hpe
              obtain rfl := Except.ok.inj hpe
              simp only [countRoots, countDirs, countOthers, List.countP_cons,
                nonTextLineCount, List.countP_append, List.length_cons] at ihA ⊢
              simp at ihA ⊢
              omega
          | file info d =>
              obtain ⟨sz, hsz, hcases⟩ :=
                processEntry_file_ok_cases args st info d st1 hpe
              rcases hcases with ⟨-, rfl⟩ | ⟨-, -, rfl⟩ | ⟨-, -, -, rfl⟩ |
                ⟨-, -, -, bytes, hb, hcl⟩
              · simp only [countRoots, countDirs, countOthers, List.countP_cons,
                  nonTextLineCount, List.countP_append, List.length_cons,
                  List.length_append] at ihA ⊢
                simp at ihA ⊢
                omega
              · simp only [countRoots, countDirs, countOthers, List.countP_cons,
                  nonTextLineCount, List.countP_append, List.length_cons,
                  List.length_append] at ihA ⊢
                simp at ihA ⊢
                omega
              · simp only [countRoots, countDirs, countOthers, List.countP_cons,
                  nonTextLineCount, List.countP_append, List.length_cons,
                  List.length_append] at ihA ⊢
                simp at ihA ⊢
                omega
              · rcases hcl with ⟨-, rfl⟩ | ⟨-, -, rfl⟩ | ⟨content, -, hc, rfl⟩ <;>
                  · simp only [countRoots, countDirs, countOthers, List.countP_cons,
                      nonTextLineCount, List.countP_append, List.length_cons,
                      List.length_append] at ihA ⊢
                    simp at ihA ⊢
                    omega

end Llmr

namespace Llmr

/-- C9 counterexample: on a run over the root plus one binary-classified
file, admitted files (0) plus skip records (0) plus directory entries
(0, or 1 even if the root entry is counted as a directory) does not equal
the 2 entries yielded: a binary file is excluded without any skip record,
so it is not accounted for by the claimed three categories. -/
theorem C9_counterexample :
    runEntries ⟨1048576, 104857600, 10000⟩ RunState.init
        [.root "r", .file ⟨"bin", some 3, some [0], none⟩ 1] =
      .ok ⟨0, 0, [], [.rootLine "r", .fileLine 0 "bin" true], []⟩ ∧
    ¬ ((⟨0, 0, [], [.rootLine "r", .fileLine 0 "bin" true], []⟩
          : RunState).file_contents.length +
        (⟨0, 0, [], [.rootLine "r", .fileLine 0 "bin" true], []⟩
          : RunState).errors.length +
        countDirs [.root "r", .file ⟨"bin", some 3, some [0], none⟩ 1] =
        ([.root "r", .file ⟨"bin", some 3, some [0], none⟩ 1]
          : List Entry).length) ∧
    ¬ ((⟨0, 0, [], [.rootLine "r", .fileLine 0 "bin" true], []⟩
          : RunState).file_contents.length +
        (⟨0, 0, [], [.rootLine "r", .fileLine 0 "bin" true], []⟩
          : RunState).errors.length +
        (countDirs [.root "r", .file ⟨"bin", some 3, some [0], none⟩ 1] + 1) =
        ([.root "r", .file ⟨"bin", some 3, some [0], none⟩ 1]
          : List Entry).length) :=
  ⟨rfl, by decide, by decide⟩

/-- C9 amended: after any run from the initial state, admitted files plus
skip records plus root entries plus directory entries plus binary-classified
files (the non-text-annotated tree lines) plus entries that are neither
root, directory, nor regular file together account for every yielded entry
exactly once. -/
theorem C9_amended_accounting (args : Limits) (entries : List Entry)
    (st' : RunState) (h : runEntries args RunState.init entries = .ok st') :
    st'.file_contents.length + st'.errors.length +
      nonTextLineCount st'.tree_lines + countRoots entries +
      countDirs entries + countOthers entries = entries.length := by
  have := runEntries_accounting args entries RunState.init st' h
  simpa [RunState.init, nonTextLineCount] using this

/-- Witness for C9 amended on a concrete run with a root, a directory, an
admitted file, a binary file, a limit-rejected file, and an other-kind
entry. -/
theorem C9_amended_accounting_witness :
    (⟨1, 3, [("a", "hi", 3)],
        [.rootLine "r", .dirLine 0 "sub", .fileLine 0 "a" false,
         .fileLine 0 "bin" true],
        [⟨"big", .perFileSizeLimit⟩]⟩ : RunState).file_contents.length +
      (⟨1, 3, [("a", "hi", 3)],
        [.rootLine "r", .dirLine 0 "sub", .fileLine 0 "a" false,
         .fileLine 0 "bin" true],
        [⟨"big", .perFileSizeLimit⟩]⟩ : RunState).errors.length +
      nonTextLineCount (⟨1, 3, [("a", "hi", 3)],
        [.rootLine "r", .dirLine 0 "sub", .fileLine 0 "a" false,
         .fileLine 0 "bin" true],
        [⟨"big", .perFileSizeLimit⟩]⟩ : RunState).tree_lines +
      countRoots [.root "r", .dir "sub" 1,
        .file ⟨"a", some 3, some [65], some "hi"⟩ 1,
        .file ⟨"bin", some 3, some [0], none⟩ 1,
        .file ⟨"big", some 50, some [65], some "x"⟩ 1, .other] +
      countDirs [.root "r", .dir "sub" 1,
        .file ⟨"a", some 3, some [65], some "hi"⟩ 1,
        .file ⟨"bin", some 3, some [0], none⟩ 1,
        .file ⟨"big", some 50, some [65], some "x"⟩ 1, .other] +
      countOthers [.root "r", .dir "sub" 1,
        .file ⟨"a", some 3, some [65], some "hi"⟩ 1,
        .file ⟨"bin", some 3, some [0], none⟩ 1,
        .file ⟨"big", some 50, some [65], some "x"⟩ 1, .other] =
      ([.root "r", .dir "sub" 1,
        .file ⟨"a", some 3, some [65], some "hi"⟩ 1,
        .file ⟨"bin", some 3, some [0], none⟩ 1,
        .file ⟨"big", some 50, some [65], some "x"⟩ 1, .other]
          : List Entry).length :=
  C9_amended_accounting ⟨5, 100, 10⟩
    [.root "r", .dir "sub" 1,
     .file ⟨"a", some 3, some [65], some "hi"⟩ 1,
     .file ⟨"bin", some 3, some [0], none⟩ 1,
     .file ⟨"big", some 50, some [65], some "x"⟩ 1, .other]
    ⟨1, 3, [("a", "hi", 3)],
      [.rootLine "r", .dirLine 0 "sub", .fileLine 0 "a" false,
       .fileLine 0 "bin" true],
      [⟨"big", .perFileSizeLimit⟩]⟩ rfl

end Llmr

namespace Llmr

/-- C1 counterexample: with default limits, a file whose size fetch fails
aborts the whole run with the fatal metadata error (no skip record, later
entries unprocessed, non-zero exit), and a file whose classifier read fails
aborts it with the fatal classification error — neither is recorded as a
per-file skip, contradicting the claim as stated. -/
theorem C1_counterexample :
    runEntries ⟨1048576, 104857600, 10000⟩ RunState.init
        [.root "r", .file ⟨"a", none, none, none⟩ 1,
         .file ⟨"b", some 3, some [65], some "hi"⟩ 1] =
      .error (metaErr "a") ∧
    runEntries ⟨1048576, 104857600, 10000⟩ RunState.init
        [.root "r", .file ⟨"c", some 3, none, none⟩ 1] =
      .error (classifyErr "c") :=
  ⟨rfl, rfl⟩

/-- C1 amended: a failure of the full content read is the only per-file
IoError that is non-fatal — it records exactly one read-error skip and the
run continues with the remaining entries; fetching the file's size and the
Classifier's read are instead fatal, aborting the run (alongside
current-directory resolution, walker setup, prefix-strip, and
tokenizer-initialization failures). -/
theorem C1_amended_error_tiers (args : Limits) (st : RunState)
    (n1 n2 n3 : String) (b1 : Option (List Nat)) (c1 c2 : Option String)
    (d sz : Nat) (bytes : List Nat) (rest : List Entry)
    (hcount : st.total_files < args.max_files)
    (htot : st.total_size + sz ≤ args.max_total_size)
    (hfile : sz ≤ args.max_file_size)
    (htext : is_text_file bytes = true) :
    processEntry args st (.file ⟨n1, none, b1, c1⟩ d) = .error (metaErr n1) ∧
    processEntry args st (.file ⟨n2, some sz, none, c2⟩ d) =
      .error (classifyErr n2) ∧
    runEntries args st (.file ⟨n3, some sz, some bytes, none⟩ d :: rest) =
      runEntries args
        { st with errors := st.errors ++ [⟨n3, .readError⟩] } rest :=
  ⟨processEntry_file_meta_err args st n1 b1 c1 d,
   processEntry_file_classify_err args st n2 c2 d sz hcount htot hfile,
   runEntries_cons_ok args st _ rest _
     (processEntry_file_read_err args st n3 d sz bytes hcount htot hfile htext)⟩

/-- Witness for C1 amended under limits (file 5, total 100, count 10) with a
3-byte text file. -/
theorem C1_amended_error_tiers_witness :
    processEntry ⟨5, 100, 10⟩ RunState.init (.file ⟨"a", none, none, none⟩ 1) =
      .error (metaErr "a") ∧
    processEntry ⟨5, 100, 10⟩ RunState.init (.file ⟨"b", some 3, none, none⟩ 1) =
      .error (classifyErr "b") ∧
    runEntries ⟨5, 100, 10⟩ RunState.init
        [.file ⟨"c", some 3, some [65], none⟩ 1] =
      runEntries ⟨5, 100, 10⟩
        { RunState.init with
          errors := RunState.init.errors ++ [⟨"c", .readError⟩] } [] :=
  C1_amended_error_tiers ⟨5, 100, 10⟩ RunState.init "a" "b" "c" none none none
    1 3 [65] [] (by decide) (by decide) (by decide) (by decide)

end Llmr
